import Mathlib

/-!
Verification development for the board-game recommendation pipeline
(`src/hw2/python-app/db.py` and `src/hw2/python-app/mcp_server.py`).

The Python code is shallowly embedded:
* numeric values (Python ints/floats flowing through the scorer) are
  modelled as rationals `ℚ`; `math.log10` is an uninterpreted parameter
  `lg : ℚ → ℚ`, so every theorem quantifying over `lg` holds whatever
  values the real logarithm takes;
* the PostgreSQL store is a parameter: for the scorer a row lookup
  `stats : Int → Option (Option ℚ × Option ℚ)` returning a game's
  `(avgscore, numvotes)` with nullable columns, and for the profile
  fetcher a lookup `profile : Int → Option Boardgame`;
* Python dict state is explicit: the scorer's `feats` dict is an
  insertion-ordered association list, exactly mirroring dict semantics
  (`setdefault` appends at the end, updates are in place);
* `list.sort(key=..., reverse=True)` is Python's stable sort, embedded
  as `List.insertionSort` with the total preorder "score of the left
  element is at least the score of the right one" — the unique stable
  descending arrangement, which is what CPython's stable sort produces;
* fallible paths (uncaught Python exceptions) are `Except`.
-/

namespace BGRec

/-! ## Candidate entries (db.py, score_candidates, lines 516-534)

A candidate list element is duck-typed in the source: a bare `int`, a
dict carrying `"g_id"` and optional `"cat_overlap"` / `"designer_overlap"`
keys, or anything else (skipped).  Overlap values are floats after the
source's `float(...)` conversion, modelled as `ℚ`. -/

inductive CandEntry where
  /-- `isinstance(it, int)` branch: a bare game identifier. -/
  | bare (gid : Int)
  /-- `isinstance(it, dict)` branch: a structured record with `g_id` and
  optional overlap fields (`none` = key absent from the dict). -/
  | record (gid : Int) (catOv : Option ℚ) (desOv : Option ℚ)
  /-- any other element: the source's `else: continue` skips it. -/
  | invalid
  deriving DecidableEq

/-- One merged feature row update (lines 528-531): for each overlap key
present on the incoming dict, take the max with the stored value. -/
def featUpd (catOv desOv : Option ℚ) (f : ℚ × ℚ) : ℚ × ℚ :=
  (match catOv with | some c => max f.1 c | none => f.1,
   match desOv with | some d => max f.2 d | none => f.2)

/-- One iteration of the merging loop (lines 516-534) over the
insertion-ordered `feats` dict.  `setdefault` appends a fresh
`(gid, (0,0))` row at the end when the key is new; updates rewrite the
row in place.  Excluded identifiers are skipped before touching the
dict. -/
def mergeStep (exclude : List Int) (m : List (Int × ℚ × ℚ)) : CandEntry → List (Int × ℚ × ℚ)
  | .bare gid =>
      if gid ∈ exclude then m
      else if gid ∈ m.map Prod.fst then m
      else m ++ [(gid, (0, 0))]
  | .record gid catOv desOv =>
      if gid ∈ exclude then m
      else if gid ∈ m.map Prod.fst then
        m.map fun p => if p.1 = gid then (p.1, featUpd catOv desOv p.2) else p
      else m ++ [(gid, featUpd catOv desOv (0, 0))]
  | .invalid => m

/-- The full merging loop: `feats` starts empty and is folded over the
candidate list in order. -/
def mergeFeats (exclude : List Int) (cands : List CandEntry) : List (Int × ℚ × ℚ) :=
  cands.foldl (mergeStep exclude) []

/-- Stats lookup (lines 542-554 and 559): the batch query returns a row
`(avgscore, numvotes)` per existing game id, with each column nullable
and nulls replaced by `0.0`; `stats.get(gid, (0.0, 0.0))` supplies
`(0,0)` when the game has no row at all. -/
def statsFor (stats : Int → Option (Option ℚ × Option ℚ)) (gid : Int) : ℚ × ℚ :=
  match stats gid with
  | none => (0, 0)
  | some (a, v) => (a.getD 0, v.getD 0)

/-- Quality term (line 560): `avg + 0.15 * log10(votes + 1.0)`, with
`math.log10` abstracted as `lg`. -/
def quality (lg : ℚ → ℚ) (stats : Int → Option (Option ℚ × Option ℚ)) (gid : Int) : ℚ :=
  (statsFor stats gid).1 + 0.15 * lg ((statsFor stats gid).2 + 1)

/-- Score formula (line 561):
`0.55 * cat_overlap + 0.45 * designer_overlap + quality`. -/
def scoreOf (lg : ℚ → ℚ) (stats : Int → Option (Option ℚ × Option ℚ))
    (gid : Int) (f : ℚ × ℚ) : ℚ :=
  0.55 * f.1 + 0.45 * f.2 + quality lg stats gid

/-- Sorting relation for `scored.sort(key=lambda x: x[1], reverse=True)`:
the left pair's score is at least the right pair's score. -/
def scoreGE (a b : Int × ℚ) : Prop := b.2 ≤ a.2

instance : DecidableRel scoreGE := fun a b => inferInstanceAs (Decidable (b.2 ≤ a.2))

instance : IsTotal (Int × ℚ) scoreGE := ⟨fun a b => le_total b.2 a.2⟩

instance : IsTrans (Int × ℚ) scoreGE := ⟨fun _ _ _ h₁ h₂ => le_trans h₂ h₁⟩

/-- Python list slicing `l[:n]` for an arbitrary (possibly negative)
integer bound: a nonnegative bound keeps the first `n` elements, a
negative one drops `-n` elements from the end. -/
def pySlice (n : Int) (l : List α) : List α :=
  if 0 ≤ n then l.take n.toNat else l.take ((l.length : Int) + n).toNat

/-- Embedding of `DBManager.score_candidates` (db.py lines 477-566).
`limit_final` is the value `Constraints(**constraints).limit_final`
contributes (the only constraint field the function reads); `exclude`
is `exclude_g_ids` (membership in the Python `set` is membership in the
list); `lg` abstracts `math.log10` and `stats` the store query. -/
def score_candidates (lg : ℚ → ℚ) (stats : Int → Option (Option ℚ × Option ℚ))
    (candidates : List CandEntry) (limit_final : Int) (exclude : List Int) : List Int :=
  let feats := mergeFeats exclude candidates
  if feats.isEmpty then []
  else
    let scored := feats.map fun p => (p.1, scoreOf lg stats p.1 p.2)
    let sorted := List.insertionSort scoreGE scored
    (pySlice limit_final sorted).map Prod.fst

/-- First-match association lookup in the merged state (dict access by
key). -/
def featLookup (m : List (Int × ℚ × ℚ)) (gid : Int) : Option (ℚ × ℚ) :=
  (m.find? fun p => p.1 == gid).map Prod.snd

/-- The game identifier an entry contributes, when it is not skipped:
`none` for invalid entries and for excluded identifiers. -/
def entryGid (exclude : List Int) : CandEntry → Option Int
  | .bare gid => if gid ∈ exclude then none else some gid
  | .record gid _ _ => if gid ∈ exclude then none else some gid
  | .invalid => none

/-- Identifiers that survive skipping/exclusion, in input order. -/
def survivors (exclude : List Int) (cands : List CandEntry) : List Int :=
  cands.filterMap (entryGid exclude)

/-- First-appearance deduplication, preserving order (the key order of a
Python dict filled by `setdefault`). -/
def dedupFirst (l : List Int) : List Int :=
  l.foldl (fun acc g => if g ∈ acc then acc else acc ++ [g]) []

end BGRec

namespace BGRec

/-! ## Structural lemmas about the merging loop -/

lemma keys_mapUpd (m : List (Int × ℚ × ℚ)) (gid : Int) (catOv desOv : Option ℚ) :
    ((m.map fun p => if p.1 = gid then (p.1, featUpd catOv desOv p.2) else p).map Prod.fst)
      = m.map Prod.fst := by
  rw [List.map_map]
  refine List.map_congr_left fun p _ => ?_
  by_cases h : p.1 = gid <;> simp [h]

lemma featUpd_idem (catOv desOv : Option ℚ) (f : ℚ × ℚ) :
    featUpd catOv desOv (featUpd catOv desOv f) = featUpd catOv desOv f := by
  unfold featUpd
  cases catOv <;> cases desOv <;> simp [max_assoc, max_self]

/-- The keys of the merged state after one step: unchanged, or one fresh
non-excluded key appended. -/
lemma keys_mergeStep (exclude : List Int) (m : List (Int × ℚ × ℚ)) (c : CandEntry) :
    (mergeStep exclude m c).map Prod.fst = m.map Prod.fst ∨
      ∃ g, g ∉ exclude ∧ g ∉ m.map Prod.fst ∧
        (mergeStep exclude m c).map Prod.fst = m.map Prod.fst ++ [g] := by
  cases c with
  | bare gid =>
    by_cases hex : gid ∈ exclude
    · left; simp [mergeStep, hex]
    · by_cases hm : gid ∈ m.map Prod.fst
      · left; simp [mergeStep, hex, hm]
      · right; exact ⟨gid, hex, hm, by simp [mergeStep, hex, hm]⟩
  | record gid catOv desOv =>
    by_cases hex : gid ∈ exclude
    · left; simp [mergeStep, hex]
    · by_cases hm : gid ∈ m.map Prod.fst
      · left
        simp only [mergeStep, if_neg hex, if_pos hm]
        exact keys_mapUpd m gid catOv desOv
      · right; exact ⟨gid, hex, hm, by simp [mergeStep, hex, hm]⟩
  | invalid => left; rfl

lemma mergeFeats_keys_aux (exclude : List Int) (cands : List CandEntry)
    (m : List (Int × ℚ × ℚ))
    (hm : ∀ g ∈ m.map Prod.fst, g ∉ exclude) (hnd : (m.map Prod.fst).Nodup) :
    (∀ g ∈ (cands.foldl (mergeStep exclude) m).map Prod.fst, g ∉ exclude) ∧
      ((cands.foldl (mergeStep exclude) m).map Prod.fst).Nodup := by
  induction cands generalizing m with
  | nil => exact ⟨hm, hnd⟩
  | cons c cs ih =>
    rw [List.foldl_cons]
    rcases keys_mergeStep exclude m c with h | ⟨g, hg, hgm, h⟩
    · exact ih _ (h ▸ hm) (h ▸ hnd)
    · refine ih _ (fun g' hg' => ?_) (h ▸ ?_)
      · rw [h, List.mem_append, List.mem_singleton] at hg'
        rcases hg' with hg' | rfl
        · exact hm g' hg'
        · exact hg
      · exact hnd.append (List.nodup_singleton g)
          (fun a ha hb => hgm ((List.mem_singleton.mp hb) ▸ ha))

/-- No key of the merged state is an excluded identifier. -/
lemma mergeFeats_keys_not_excluded {exclude : List Int} {cands : List CandEntry} {g : Int}
    (hg : g ∈ (mergeFeats exclude cands).map Prod.fst) : g ∉ exclude :=
  (mergeFeats_keys_aux exclude cands [] (by simp) (by simp)).1 g hg

/-- The merged state has pairwise-distinct keys. -/
lemma mergeFeats_keys_nodup (exclude : List Int) (cands : List CandEntry) :
    ((mergeFeats exclude cands).map Prod.fst).Nodup :=
  (mergeFeats_keys_aux exclude cands [] (by simp) (by simp)).2

end BGRec

namespace BGRec

open List in
/-! ## Lookup and slicing lemmas -/

lemma featLookup_eq_none {m : List (Int × ℚ × ℚ)} {gid : Int}
    (h : gid ∉ m.map Prod.fst) : featLookup m gid = none := by
  unfold featLookup
  rw [List.find?_eq_none.mpr]
  · rfl
  · intro p hp hpg
    exact h (List.mem_map.mpr ⟨p, hp, by simpa using hpg⟩)

lemma featLookup_append_self {m : List (Int × ℚ × ℚ)} {gid : Int} (f : ℚ × ℚ)
    (h : gid ∉ m.map Prod.fst) : featLookup (m ++ [(gid, f)]) gid = some f := by
  induction m with
  | nil => simp [featLookup]
  | cons p m ih =>
    rw [List.mem_map, not_exists] at h
    have hpg : ¬ p.1 = gid := by
      have := h p
      simpa using fun hq => this ⟨List.mem_cons_self p m, hq⟩
    rw [List.cons_append]
    unfold featLookup
    rw [List.find?_cons_of_neg _ (by simpa using hpg)]
    exact ih fun hq => by
      rcases List.mem_map.mp hq with ⟨q, hq₁, hq₂⟩
      exact (h q) ⟨List.mem_cons_of_mem p hq₁, hq₂⟩

lemma featLookup_mapUpd (m : List (Int × ℚ × ℚ)) (gid : Int) (fn : ℚ × ℚ → ℚ × ℚ) :
    featLookup (m.map fun p => if p.1 = gid then (p.1, fn p.2) else p) gid
      = (featLookup m gid).map fn := by
  induction m with
  | nil => simp [featLookup]
  | cons p m ih =>
    by_cases hpg : p.1 = gid
    · unfold featLookup
      rw [List.map_cons, if_pos hpg, List.find?_cons_of_pos _ (by simpa using hpg),
        List.find?_cons_of_pos _ (by simpa using hpg)]
      rfl
    · unfold featLookup
      rw [List.map_cons, if_neg hpg, List.find?_cons_of_neg _ (by simpa using hpg),
        List.find?_cons_of_neg _ (by simpa using hpg)]
      exact ih

lemma featLookup_of_mem_of_nodup {m : List (Int × ℚ × ℚ)} {q : Int × ℚ × ℚ}
    (hnd : (m.map Prod.fst).Nodup) (hq : q ∈ m) : featLookup m q.1 = some q.2 := by
  induction m with
  | nil => cases hq
  | cons p m ih =>
    rw [List.map_cons, List.nodup_cons] at hnd
    rcases List.mem_cons.mp hq with rfl | hq
    · unfold featLookup
      rw [List.find?_cons_of_pos _ (by simp)]
      rfl
    · have hpq : ¬ p.1 = q.1 := fun h =>
        hnd.1 (h ▸ List.mem_map.mpr ⟨q, hq, rfl⟩)
      unfold featLookup
      rw [List.find?_cons_of_neg _ (by simpa using hpq)]
      exact ih hnd.2 hq

/-- `l[:n]` is a prefix, hence a sublist, of `l`. -/
lemma pySlice_sublist (n : Int) (l : List α) : List.Sublist (pySlice n l) l := by
  unfold pySlice
  split <;> exact List.take_sublist _ _

lemma pySlice_eq_take (n : Int) (l : List α) :
    pySlice n l = l.take (if 0 ≤ n then n.toNat else ((l.length : Int) + n).toNat) := by
  unfold pySlice
  split <;> simp_all

lemma pySlice_length_le {n : Int} (hn : 0 ≤ n) (l : List α) :
    ((pySlice n l).length : Int) ≤ n := by
  rw [pySlice_eq_take, if_pos hn]
  calc ((l.take n.toNat).length : Int) ≤ (n.toNat : Int) := by
        exact_mod_cast List.length_take_le _ _
    _ = n := Int.toNat_of_nonneg hn

/-- Everything the scorer returns is a key of the merged state. -/
lemma score_candidates_subset_keys {lg : ℚ → ℚ} {stats : Int → Option (Option ℚ × Option ℚ)}
    {cands : List CandEntry} {limit_final : Int} {exclude : List Int} {g : Int}
    (hg : g ∈ score_candidates lg stats cands limit_final exclude) :
    g ∈ (mergeFeats exclude cands).map Prod.fst := by
  simp only [score_candidates] at hg
  split at hg
  · cases hg
  · rcases List.mem_map.mp hg with ⟨p, hp, rfl⟩
    have hp₂ : p ∈ List.insertionSort scoreGE
        ((mergeFeats exclude cands).map fun q => (q.1, scoreOf lg stats q.1 q.2)) :=
      (pySlice_sublist _ _).mem hp
    have hp₃ := (List.mem_insertionSort scoreGE).mp hp₂
    rcases List.mem_map.mp hp₃ with ⟨q, hq, rfl⟩
    exact List.mem_map.mpr ⟨q, hq, rfl⟩

end BGRec

namespace BGRec

/-! ## Stability and key-order lemmas -/

/-- In a duplicate-free list, a pair that occurs in order still occurs in
order in any prefix containing the second component. -/
lemma pair_sublist_take {α : Type _} {a b : α} (l : List α) (hnd : l.Nodup)
    (hab : List.Sublist [a, b] l) :
    ∀ k : ℕ, b ∈ l.take k → List.Sublist [a, b] (l.take k) := by
  induction l with
  | nil => simp at hab
  | cons x l ih =>
    intro k hb
    cases k with
    | zero => simp at hb
    | succ k =>
      rw [List.take_succ_cons] at hb ⊢
      rw [List.nodup_cons] at hnd
      cases hab with
      | cons _ h =>
        have hbl : b ∈ l := h.subset (by simp)
        have hbx : b ≠ x := fun e => hnd.1 (e ▸ hbl)
        have hb₂ : b ∈ l.take k := by
          rcases List.mem_cons.mp hb with e | hh
          · exact absurd e hbx
          · exact hh
        exact (ih hnd.2 h k hb₂).cons x
      | cons₂ _ h =>
        have hbl : b ∈ l := h.subset (by simp)
        have hbx : b ≠ a := fun e => hnd.1 (e ▸ hbl)
        have hb₂ : b ∈ l.take k := by
          rcases List.mem_cons.mp hb with e | hh
          · exact absurd e hbx
          · exact hh
        exact (List.singleton_sublist.mpr hb₂).cons₂ a

lemma keys_scored (lg : ℚ → ℚ) (stats : Int → Option (Option ℚ × Option ℚ))
    (feats : List (Int × ℚ × ℚ)) :
    ((feats.map fun p => (p.1, scoreOf lg stats p.1 p.2)).map Prod.fst)
      = feats.map Prod.fst := by
  rw [List.map_map]
  rfl

/-- The key sequence built by the fold is first-appearance deduplication
of the surviving identifiers, whatever state the fold starts from. -/
lemma mergeFeats_keys_foldl (exclude : List Int) (cands : List CandEntry) :
    ∀ m : List (Int × ℚ × ℚ),
      ((cands.foldl (mergeStep exclude) m).map Prod.fst)
        = (survivors exclude cands).foldl
            (fun acc g => if g ∈ acc then acc else acc ++ [g]) (m.map Prod.fst) := by
  induction cands with
  | nil => intro m; rfl
  | cons c cs ih =>
    intro m
    rw [List.foldl_cons]
    cases c with
    | invalid =>
      have h₂ : survivors exclude (CandEntry.invalid :: cs) = survivors exclude cs := by
        simp [survivors, entryGid]
      rw [h₂]
      exact ih m
    | bare gid =>
      by_cases hex : gid ∈ exclude
      · have h₁ : mergeStep exclude m (.bare gid) = m := by simp [mergeStep, hex]
        have h₂ : survivors exclude (CandEntry.bare gid :: cs) = survivors exclude cs := by
          simp [survivors, entryGid, hex]
        rw [h₁, h₂]
        exact ih m
      · have h₂ : survivors exclude (CandEntry.bare gid :: cs)
            = gid :: survivors exclude cs := by
          simp [survivors, entryGid, hex]
        rw [h₂, List.foldl_cons, ih]
        congr 1
        by_cases hm : gid ∈ m.map Prod.fst
        · simp [mergeStep, hex, hm]
        · simp [mergeStep, hex, hm]
    | record gid catOv desOv =>
      by_cases hex : gid ∈ exclude
      · have h₁ : mergeStep exclude m (.record gid catOv desOv) = m := by
          simp [mergeStep, hex]
        have h₂ : survivors exclude (CandEntry.record gid catOv desOv :: cs)
            = survivors exclude cs := by
          simp [survivors, entryGid, hex]
        rw [h₁, h₂]
        exact ih m
      · have h₂ : survivors exclude (CandEntry.record gid catOv desOv :: cs)
            = gid :: survivors exclude cs := by
          simp [survivors, entryGid, hex]
        rw [h₂, List.foldl_cons, ih]
        congr 1
        by_cases hm : gid ∈ m.map Prod.fst
        · simp only [mergeStep, if_neg hex, if_pos hm, keys_mapUpd]
        · simp [mergeStep, hex, hm]

/-- The merged state's key order is the first-appearance order of the
surviving (non-excluded, non-invalid) identifiers in the input. -/
lemma mergeFeats_keys_eq_dedupFirst (exclude : List Int) (cands : List CandEntry) :
    (mergeFeats exclude cands).map Prod.fst = dedupFirst (survivors exclude cands) := by
  unfold mergeFeats dedupFirst
  simpa using mergeFeats_keys_foldl exclude cands []

end BGRec

namespace BGRec

/-! ## Stable-sort behaviour of the scorer -/

/-- Two merged rows with equal scores keep their merge order in the
scorer's output: if the second one made the final cut, both did, in the
original relative order. -/
lemma stable_pair_output {lg : ℚ → ℚ} {stats : Int → Option (Option ℚ × Option ℚ)}
    {cands : List CandEntry} {limit_final : Int} {exclude : List Int}
    {g₁ g₂ : Int} {f₁ f₂ : ℚ × ℚ}
    (hsub : List.Sublist [(g₁, f₁), (g₂, f₂)] (mergeFeats exclude cands))
    (hsc : scoreOf lg stats g₁ f₁ = scoreOf lg stats g₂ f₂)
    (hg₂ : g₂ ∈ score_candidates lg stats cands limit_final exclude) :
    List.Sublist [g₁, g₂] (score_candidates lg stats cands limit_final exclude) := by
  have hndk := mergeFeats_keys_nodup exclude cands
  set feats := mergeFeats exclude cands with hfeats
  set scored := feats.map fun p => (p.1, scoreOf lg stats p.1 p.2) with hscored
  set sorted := List.insertionSort scoreGE scored with hsorted
  have hout : score_candidates lg stats cands limit_final exclude
      = (pySlice limit_final sorted).map Prod.fst := by
    simp only [score_candidates, ← hfeats, ← hscored, ← hsorted]
    rcases h : feats.isEmpty with _ | _
    · simp [h]
    · rw [if_pos rfl]
      rw [List.isEmpty_iff] at h
      rw [h] at hsub
      simp at hsub
  rw [hout] at hg₂ ⊢
  have hndscored : scored.Nodup := by
    refine List.Nodup.of_map Prod.fst ?_
    rw [hscored, keys_scored]
    exact hndk
  have hndsorted : sorted.Nodup :=
    ((List.perm_insertionSort scoreGE scored).nodup_iff).mpr hndscored
  have hab : List.Sublist
      [(g₁, scoreOf lg stats g₁ f₁), (g₂, scoreOf lg stats g₂ f₂)] scored := by
    have := hsub.map fun p => (p.1, scoreOf lg stats p.1 p.2)
    simpa using this
  have hr : scoreGE (g₁, scoreOf lg stats g₁ f₁) (g₂, scoreOf lg stats g₂ f₂) := by
    simp [scoreGE, hsc]
  have hst : List.Sublist
      [(g₁, scoreOf lg stats g₁ f₁), (g₂, scoreOf lg stats g₂ f₂)] sorted :=
    List.pair_sublist_insertionSort hr hab
  have hb : (g₂, scoreOf lg stats g₂ f₂) ∈ pySlice limit_final sorted := by
    rcases List.mem_map.mp hg₂ with ⟨p, hp, hp₁⟩
    have hp₂ : p ∈ sorted := (pySlice_sublist _ _).mem hp
    have hp₃ : p ∈ scored := (List.mem_insertionSort scoreGE).mp hp₂
    rcases List.mem_map.mp hp₃ with ⟨q, hq, rfl⟩
    have hqf : q ∈ feats := hq
    have h₂f : (g₂, f₂) ∈ feats := hsub.subset (by simp)
    have e₁ : featLookup feats q.1 = some q.2 := featLookup_of_mem_of_nodup hndk hqf
    have e₂ : featLookup feats g₂ = some f₂ := featLookup_of_mem_of_nodup hndk h₂f
    have hq₁ : q.1 = g₂ := by simpa using hp₁
    rw [hq₁] at e₁
    rw [e₂] at e₁
    have hq₂ : q.2 = f₂ := (Option.some.inj e₁).symm
    have : q = (g₂, f₂) := Prod.ext hq₁ hq₂
    rw [this] at hp
    exact hp
  have hsl : List.Sublist
      [(g₁, scoreOf lg stats g₁ f₁), (g₂, scoreOf lg stats g₂ f₂)]
      (pySlice limit_final sorted) := by
    rw [pySlice_eq_take] at hb ⊢
    exact pair_sublist_take sorted hndsorted hst _ hb
  have := hsl.map Prod.fst
  simpa using this

/-! ## Idempotence of the merging step -/

lemma mergeStep_idem (exclude : List Int) (m : List (Int × ℚ × ℚ)) (c : CandEntry) :
    mergeStep exclude (mergeStep exclude m c) c = mergeStep exclude m c := by
  cases c with
  | invalid => rfl
  | bare gid =>
    by_cases hex : gid ∈ exclude
    · simp [mergeStep, hex]
    · by_cases hm : gid ∈ m.map Prod.fst
      · simp [mergeStep, hex, hm]
      · have hm₂ : gid ∈ (m ++ [(gid, ((0 : ℚ), (0 : ℚ)))]).map Prod.fst := by simp
        simp [mergeStep, hex, hm, hm₂]
    | record gid catOv desOv =>
    by_cases hex : gid ∈ exclude
    · simp [mergeStep, hex]
    · by_cases hm : gid ∈ m.map Prod.fst
      · have hm₂ : gid ∈ ((m.map fun p =>
            if p.1 = gid then (p.1, featUpd catOv desOv p.2) else p).map Prod.fst) := by
          rw [keys_mapUpd]; exact hm
        simp only [mergeStep, if_neg hex, if_pos hm, if_pos hm₂]
        rw [List.map_map]
        refine List.map_congr_left fun p _ => ?_
        by_cases hpg : p.1 = gid <;> simp [Function.comp, hpg, featUpd_idem]
      · have hm₂ : gid ∈ ((m ++ [(gid, featUpd catOv desOv (0, 0))]).map Prod.fst) := by
          simp
        simp only [mergeStep, if_neg hex, if_neg hm, if_pos hm₂, List.map_append]
        rw [List.map_congr_left (fun p hp => if_neg (fun hpg : p.1 = gid =>
          hm (hpg ▸ List.mem_map.mpr ⟨p, hp, rfl⟩)))]
        simp [featUpd_idem]

end BGRec

namespace BGRec

/-! ## Max-merge and dropped-entry lemmas -/

lemma mergeFeats_append_single (exclude : List Int) (cands : List CandEntry) (c : CandEntry) :
    mergeFeats exclude (cands ++ [c]) = mergeStep exclude (mergeFeats exclude cands) c := by
  unfold mergeFeats
  rw [List.foldl_append, List.foldl_cons, List.foldl_nil]

/-- Appending a structured record merges by per-dimension maximum with
whatever value the identifier had before (zero when it was absent). -/
lemma mergeFeats_record_max (exclude : List Int) (cands : List CandEntry)
    {g : Int} (hg : g ∉ exclude) (c d : ℚ) :
    featLookup (mergeFeats exclude (cands ++ [.record g (some c) (some d)])) g
      = some (max ((featLookup (mergeFeats exclude cands) g).getD (0, 0)).1 c,
              max ((featLookup (mergeFeats exclude cands) g).getD (0, 0)).2 d) := by
  rw [mergeFeats_append_single]
  set m := mergeFeats exclude cands with hm
  by_cases hmem : g ∈ m.map Prod.fst
  · rcases List.mem_map.mp hmem with ⟨q, hq, hq₁⟩
    have hl : featLookup m g = some q.2 := hq₁ ▸ featLookup_of_mem_of_nodup
      (hm ▸ mergeFeats_keys_nodup exclude cands) hq
    simp only [mergeStep, if_neg hg, if_pos hmem, featLookup_mapUpd, hl]
    simp [featUpd]
  · have hl : featLookup m g = none := featLookup_eq_none hmem
    simp only [mergeStep, if_neg hg, if_neg hmem]
    rw [featLookup_append_self _ hmem, hl]
    simp [featUpd]

/-- An entry that is invalid or excluded leaves the merged state alone. -/
lemma mergeStep_dropped {exclude : List Int} {c : CandEntry}
    (hc : entryGid exclude c = none) (m : List (Int × ℚ × ℚ)) :
    mergeStep exclude m c = m := by
  cases c with
  | invalid => rfl
  | bare gid =>
    have hex : gid ∈ exclude := by
      by_contra hex
      simp [entryGid, hex] at hc
    simp [mergeStep, hex]
  | record gid catOv desOv =>
    have hex : gid ∈ exclude := by
      by_contra hex
      simp [entryGid, hex] at hc
    simp [mergeStep, hex]

/-- Keys of the merged state only ever grow along the fold. -/
lemma keys_monotone (exclude : List Int) (cands : List CandEntry)
    {m : List (Int × ℚ × ℚ)} {g : Int} (hg : g ∈ m.map Prod.fst) :
    g ∈ (cands.foldl (mergeStep exclude) m).map Prod.fst := by
  induction cands generalizing m with
  | nil => exact hg
  | cons c cs ih =>
    rw [List.foldl_cons]
    rcases keys_mergeStep exclude m c with h | ⟨g₂, _, _, h⟩
    · exact ih (h ▸ hg)
    · exact ih (by rw [h]; exact List.mem_append_left _ hg)

lemma mergeFeats_all_dropped {exclude : List Int} {cands : List CandEntry}
    (h : ∀ c ∈ cands, entryGid exclude c = none) :
    mergeFeats exclude cands = [] := by
  unfold mergeFeats
  induction cands with
  | nil => rfl
  | cons c cs ih =>
    rw [List.foldl_cons, mergeStep_dropped (h c (List.mem_cons_self c cs))]
    exact ih fun c hc => h c (List.mem_cons_of_mem _ hc)

end BGRec

namespace BGRec

/-! ## Concrete environments used by witnesses -/

/-- A concrete stand-in for `math.log10` (any function works for the
claims that do not fix the logarithm). -/
def lgZero : ℚ → ℚ := fun _ => 0

/-- A store with no rows at all. -/
def statsEmpty : Int → Option (Option ℚ × Option ℚ) := fun _ => none

/-- A store with a single game row, id 1, avgscore 7.5, 100 votes. -/
def statsOne : Int → Option (Option ℚ × Option ℚ) :=
  fun g => if g = 1 then some (some 7.5, some 100) else none

lemma scored_snd_eq {lg : ℚ → ℚ} {stats : Int → Option (Option ℚ × Option ℚ)}
    {exclude : List Int} {cands : List CandEntry} {p : Int × ℚ}
    (hp : p ∈ (mergeFeats exclude cands).map fun q => (q.1, scoreOf lg stats q.1 q.2)) :
    scoreOf lg stats p.1 ((featLookup (mergeFeats exclude cands) p.1).getD (0, 0)) = p.2 := by
  rcases List.mem_map.mp hp with ⟨q, hq, rfl⟩
  rw [featLookup_of_mem_of_nodup (mergeFeats_keys_nodup exclude cands) hq]
  rfl

/-! ## Claims about the scorer -/

/-- C1: no identifier occurring in `exclude_g_ids` appears in the list
returned by `score_candidates`; excluded identifiers are dropped during
merging, before scoring, for bare-integer and structured entries alike. -/
theorem C1_scorer_exclusion (lg : ℚ → ℚ) (stats : Int → Option (Option ℚ × Option ℚ))
    (cands : List CandEntry) (limit_final : Int) (exclude : List Int) (g : Int)
    (hg : g ∈ exclude) :
    g ∉ score_candidates lg stats cands limit_final exclude :=
  fun hmem => mergeFeats_keys_not_excluded (score_candidates_subset_keys hmem) hg

theorem C1_scorer_exclusion_witness :
    (5 : Int) ∈ [(5 : Int)] ∧
      (5 : Int) ∉ score_candidates lgZero statsEmpty
        [.bare 5, .record 5 (some 2) none, .bare 7] 8 [5] :=
  ⟨by decide,
   C1_scorer_exclusion lgZero statsEmpty [.bare 5, .record 5 (some 2) none, .bare 7]
     8 [5] 5 (by decide)⟩

/-- C2: every merged candidate is scored as
`0.55 * catOverlap + 0.45 * designerOverlap + avg + 0.15 * log10(votes + 1)`,
with store stats defaulting to zero when the row is missing or a column is
NULL, and the returned identifiers are ordered by this score descending. -/
theorem C2_score_formula_and_order (lg : ℚ → ℚ)
    (stats : Int → Option (Option ℚ × Option ℚ)) (cands : List CandEntry)
    (limit_final : Int) (exclude : List Int) :
    (∀ (gid : Int) (f : ℚ × ℚ),
       scoreOf lg stats gid f
         = 0.55 * f.1 + 0.45 * f.2
             + ((statsFor stats gid).1 + 0.15 * lg ((statsFor stats gid).2 + 1))) ∧
    (∀ gid : Int, stats gid = none → statsFor stats gid = (0, 0)) ∧
    (∀ (gid : Int) (a v : Option ℚ), stats gid = some (a, v)
       → statsFor stats gid = (a.getD 0, v.getD 0)) ∧
    ((score_candidates lg stats cands limit_final exclude).map
        (fun g => scoreOf lg stats g
          ((featLookup (mergeFeats exclude cands) g).getD (0, 0)))).Sorted (· ≥ ·) := by
  refine ⟨fun gid f => by unfold scoreOf quality; ring,
    fun gid h => by simp [statsFor, h],
    fun gid a v h => by simp [statsFor, h], ?_⟩
  simp only [score_candidates]
  split
  · simp
  · set feats := mergeFeats exclude cands with hfeats
    set scored := feats.map fun p => (p.1, scoreOf lg stats p.1 p.2) with hscored
    set sorted := List.insertionSort scoreGE scored with hsorted
    have hs₁ : sorted.Sorted scoreGE := List.sorted_insertionSort scoreGE scored
    have hs₂ : (pySlice limit_final sorted).Sorted scoreGE :=
      hs₁.sublist (pySlice_sublist _ _)
    rw [List.map_map, List.Sorted, List.pairwise_map]
    refine hs₂.imp_of_mem ?_
    intro a b ha hb hr
    have ha₂ : a ∈ scored :=
      (List.mem_insertionSort scoreGE).mp ((pySlice_sublist _ _).mem ha)
    have hb₂ : b ∈ scored :=
      (List.mem_insertionSort scoreGE).mp ((pySlice_sublist _ _).mem hb)
    have ea := scored_snd_eq (hscored ▸ ha₂)
    have eb := scored_snd_eq (hscored ▸ hb₂)
    rw [← hfeats] at ea eb
    simp only [Function.comp_apply, ge_iff_le]
    rw [eb, ea]
    exact hr

theorem C2_score_formula_and_order_witness :
    statsFor statsEmpty 0 = (0, 0) ∧
    statsFor statsOne 1 = ((7.5 : ℚ), 100) ∧
    ((score_candidates lgZero statsEmpty [.bare 1, .bare 2] 8 []).map
        (fun g => scoreOf lgZero statsEmpty g
          ((featLookup (mergeFeats [] [.bare 1, .bare 2]) g).getD (0, 0)))).Sorted (· ≥ ·) := by
  refine ⟨(C2_score_formula_and_order lgZero statsEmpty [] 8 []).2.1 0 rfl, ?_,
    (C2_score_formula_and_order lgZero statsEmpty [.bare 1, .bare 2] 8 []).2.2.2⟩
  have h := (C2_score_formula_and_order lgZero statsOne [] 8 []).2.2.1 1
    (some 7.5) (some 100) rfl
  simpa using h

/-- C3: multiple occurrences of the same identifier are merged by taking,
per dimension, the maximum of the values seen (never the sum), so
supplying the identical candidate entry twice yields exactly the output
of supplying it once. -/
theorem C3_merge_max_idempotence (lg : ℚ → ℚ)
    (stats : Int → Option (Option ℚ × Option ℚ)) (l₁ l₂ : List CandEntry)
    (e : CandEntry) (limit_final : Int) (exclude : List Int) :
    (score_candidates lg stats (l₁ ++ e :: e :: l₂) limit_final exclude
       = score_candidates lg stats (l₁ ++ e :: l₂) limit_final exclude) ∧
    (∀ g : Int, g ∉ exclude → ∀ c d : ℚ,
       featLookup (mergeFeats exclude (l₁ ++ [.record g (some c) (some d)])) g
         = some (max ((featLookup (mergeFeats exclude l₁) g).getD (0, 0)).1 c,
                 max ((featLookup (mergeFeats exclude l₁) g).getD (0, 0)).2 d)) := by
  constructor
  · have hm : mergeFeats exclude (l₁ ++ e :: e :: l₂)
        = mergeFeats exclude (l₁ ++ e :: l₂) := by
      unfold mergeFeats
      rw [List.foldl_append, List.foldl_append, List.foldl_cons, List.foldl_cons,
        List.foldl_cons, mergeStep_idem]
    unfold score_candidates
    rw [hm]
  · exact fun g hg c d => mergeFeats_record_max exclude l₁ hg c d

theorem C3_merge_max_idempotence_witness :
    (score_candidates lgZero statsEmpty
        [CandEntry.record 3 (some 2) (some 1), CandEntry.record 3 (some 2) (some 1)] 8 []
      = score_candidates lgZero statsEmpty [CandEntry.record 3 (some 2) (some 1)] 8 []) ∧
    featLookup (mergeFeats [] [CandEntry.record 3 (some 2) (some 1)]) 3
      = some (max 0 2, max 0 1) := by
  have h := C3_merge_max_idempotence lgZero statsEmpty []
    [] (CandEntry.record 3 (some 2) (some 1)) 8 []
  refine ⟨h.1, ?_⟩
  have h₂ := h.2 3 (by decide) 2 1
  simpa [mergeFeats, featLookup] using h₂

/-- C4 (amended): when `limit_final` is nonnegative the returned list has
length at most `limit_final`, and an empty candidate list — or one whose
entries are all excluded or invalid — yields the empty list rather than
an error.  (For a negative `limit_final` the claim as stated fails:
Python slicing `scored[:n]` with `n < 0` drops `-n` elements from the
end instead of bounding the length by `n`.) -/
theorem C4_scorer_cap_amended (lg : ℚ → ℚ)
    (stats : Int → Option (Option ℚ × Option ℚ)) (cands : List CandEntry)
    (limit_final : Int) (exclude : List Int) :
    (0 ≤ limit_final →
       ((score_candidates lg stats cands limit_final exclude).length : Int)
         ≤ limit_final) ∧
    score_candidates lg stats [] limit_final exclude = [] ∧
    ((∀ c ∈ cands, entryGid exclude c = none) →
       score_candidates lg stats cands limit_final exclude = []) := by
  refine ⟨fun hlf => ?_, rfl, fun hall => ?_⟩
  · simp only [score_candidates]
    split
    · simpa using hlf
    · rw [List.length_map]
      exact pySlice_length_le hlf _
  · simp [score_candidates, mergeFeats_all_dropped hall]

/-- C4 counterexample: with caller-supplied `limit_final = -1` and two
surviving candidates the scorer returns one identifier, and `1 ≤ -1`
fails, refuting the claim for every input. -/
theorem C4_scorer_cap_counterexample :
    score_candidates lgZero statsEmpty [.bare 1, .bare 2] (-1) [] = [1] ∧
      ¬ (((score_candidates lgZero statsEmpty [.bare 1, .bare 2] (-1) []).length : Int)
            ≤ -1) := by
  have h : score_candidates lgZero statsEmpty [.bare 1, .bare 2] (-1) [] = [1] := by
    norm_num [score_candidates, mergeFeats, mergeStep, featUpd, statsFor, quality,
      scoreOf, scoreGE, pySlice, List.insertionSort, List.orderedInsert, lgZero,
      statsEmpty]
  exact ⟨h, by rw [h]; decide⟩

theorem C4_scorer_cap_amended_witness :
    (((score_candidates lgZero statsEmpty [.bare 1, .bare 2] 1 []).length : Int) ≤ 1) ∧
    score_candidates lgZero statsEmpty [] 3 [] = [] ∧
    score_candidates lgZero statsEmpty [.bare 9, .invalid] 3 [9] = [] :=
  ⟨(C4_scorer_cap_amended lgZero statsEmpty [.bare 1, .bare 2] 1 []).1 (by decide),
   (C4_scorer_cap_amended lgZero statsEmpty [] 3 []).2.1,
   (C4_scorer_cap_amended lgZero statsEmpty [.bare 9, .invalid] 3 [9]).2.2 (by decide)⟩

/-- C7: a candidate entry that is a bare integer is treated as a row with
category overlap 0 and designer overlap 0, and is merged and scored
rather than rejected: its identifier enters the merged state (fresh rows
get value `(0,0)`), and a zero-overlap row's score is exactly the quality
term. -/
theorem C7_bare_int_entries (lg : ℚ → ℚ)
    (stats : Int → Option (Option ℚ × Option ℚ)) (l : List CandEntry)
    (exclude : List Int) (g : Int) (hg : g ∉ exclude) :
    (∀ l₂ : List CandEntry,
       g ∈ (mergeFeats exclude (l ++ .bare g :: l₂)).map Prod.fst) ∧
    mergeFeats exclude (l ++ [.bare g])
      = (if g ∈ (mergeFeats exclude l).map Prod.fst then mergeFeats exclude l
         else mergeFeats exclude l ++ [(g, (0, 0))]) ∧
    scoreOf lg stats g (0, 0) = quality lg stats g := by
  have h₂ : mergeFeats exclude (l ++ [.bare g])
      = (if g ∈ (mergeFeats exclude l).map Prod.fst then mergeFeats exclude l
         else mergeFeats exclude l ++ [(g, (0, 0))]) := by
    rw [mergeFeats_append_single]
    simp only [mergeStep, if_neg hg]
  have hmem : g ∈ (mergeFeats exclude (l ++ [.bare g])).map Prod.fst := by
    rw [h₂]
    by_cases hm : g ∈ (mergeFeats exclude l).map Prod.fst
    · rwa [if_pos hm]
    · rw [if_neg hm]
      simp
  refine ⟨fun l₂ => ?_, h₂, by norm_num [scoreOf]⟩
  have hsplit : mergeFeats exclude (l ++ .bare g :: l₂)
      = l₂.foldl (mergeStep exclude) (mergeFeats exclude (l ++ [.bare g])) := by
    unfold mergeFeats
    rw [show l ++ .bare g :: l₂ = (l ++ [.bare g]) ++ l₂ by simp, List.foldl_append]
  rw [hsplit]
  exact keys_monotone exclude l₂ hmem

theorem C7_bare_int_entries_witness :
    (4 : Int) ∈ (mergeFeats [] ([] ++ CandEntry.bare 4 :: [])).map Prod.fst ∧
    scoreOf lgZero statsEmpty 4 (0, 0) = quality lgZero statsEmpty 4 :=
  ⟨(C7_bare_int_entries lgZero statsEmpty [] [] 4 (by decide)).1 [],
   (C7_bare_int_entries lgZero statsEmpty [] [] 4 (by decide)).2.2⟩

/-- C8: the scorer is deterministic (it is a pure function of its inputs
and the store statistics), the merged state's key order is the
first-appearance order of surviving identifiers in the input, and
candidates with exactly equal scores keep that order in the output
(stable sort over insertion-ordered merged state). -/
theorem C8_determinism_tie_order (lg : ℚ → ℚ)
    (stats : Int → Option (Option ℚ × Option ℚ)) (cands : List CandEntry)
    (limit_final : Int) (exclude : List Int) :
    ((mergeFeats exclude cands).map Prod.fst = dedupFirst (survivors exclude cands)) ∧
    (∀ (g₁ g₂ : Int) (f₁ f₂ : ℚ × ℚ),
       List.Sublist [(g₁, f₁), (g₂, f₂)] (mergeFeats exclude cands) →
       scoreOf lg stats g₁ f₁ = scoreOf lg stats g₂ f₂ →
       g₂ ∈ score_candidates lg stats cands limit_final exclude →
       List.Sublist [g₁, g₂] (score_candidates lg stats cands limit_final exclude)) :=
  ⟨mergeFeats_keys_eq_dedupFirst exclude cands,
   fun _ _ _ _ hsub hsc hg₂ => stable_pair_output hsub hsc hg₂⟩

theorem C8_determinism_tie_order_witness :
    List.Sublist [(1 : Int), 2]
      (score_candidates lgZero statsEmpty [.bare 1, .bare 2] 8 []) := by
  have hout : score_candidates lgZero statsEmpty [.bare 1, .bare 2] 8 [] = [1, 2] := by
    norm_num [score_candidates, mergeFeats, mergeStep, featUpd, statsFor, quality,
      scoreOf, scoreGE, pySlice, List.insertionSort, List.orderedInsert, lgZero,
      statsEmpty]
  refine (C8_determinism_tie_order lgZero statsEmpty [.bare 1, .bare 2] 8 []).2
    1 2 (0, 0) (0, 0) ?_ rfl ?_
  · have hm : mergeFeats [] [CandEntry.bare 1, CandEntry.bare 2]
        = [(1, (0, 0)), (2, (0, 0))] := rfl
    rw [hm]
  · rw [hout]
    decide

end BGRec

namespace BGRec

/-! ## Profile fetching (db.py, Boardgame and fetch_game_cards)

The store-side `get_game_profile` is a `TODO` stub in the source (it
only documents "complete game profile or None"), so the fetcher is
verified parametrically in a lookup `profile : Int → Option Boardgame`:
`none` is Python `None`, `some` a hydrated `Boardgame`. -/

/-- Embedding of the `Boardgame` record (db.py lines 29-68).  Categories
and designers are carried as name lists; `fetch_game_cards` never
inspects them. -/
structure Boardgame where
  g_id : Int
  name : String
  avgscore : Option ℚ
  numvotes : Option Int
  minplayers : Option Int
  maxplayers : Option Int
  minplaytime : Option Int
  maxplaytime : Option Int
  categories : List String
  designers : List String
  deriving DecidableEq

/-- The fetch loop of `fetch_game_cards` (db.py lines 592-598) with the
`games` accumulator explicit; the second component records the exact
sequence of `get_game_profile` calls the loop issues.  The source's
`if game:` test is `game is not None`, because a `Boardgame` instance
defines neither `__bool__` nor `__len__` and is therefore always
truthy. -/
def fetchLoop (profile : Int → Option Boardgame) :
    List Int → List Boardgame × List Int → List Boardgame × List Int
  | [], acc => acc
  | g :: rest, (games, calls) =>
    match profile g with
    | some game => fetchLoop profile rest (games ++ [game], calls ++ [g])
    | none => fetchLoop profile rest (games, calls ++ [g])

/-- Embedding of `DBManager.fetch_game_cards` (db.py lines 569-598):
empty input short-circuits to `[]`, otherwise the loop appends each
found profile in input order and silently skips missing ones. -/
def fetch_game_cards (profile : Int → Option Boardgame) (g_ids : List Int) :
    List Boardgame :=
  if g_ids.isEmpty then [] else (fetchLoop profile g_ids ([], [])).1

/-- The sequence of identifiers `fetch_game_cards` passes to
`get_game_profile`, in order. -/
def fetchCalls (profile : Int → Option Boardgame) (g_ids : List Int) : List Int :=
  if g_ids.isEmpty then [] else (fetchLoop profile g_ids ([], [])).2

lemma fetchLoop_eq (profile : Int → Option Boardgame) (g_ids : List Int) :
    ∀ games calls, fetchLoop profile g_ids (games, calls)
      = (games ++ g_ids.filterMap profile, calls ++ g_ids) := by
  induction g_ids with
  | nil => intro games calls; simp [fetchLoop]
  | cons g rest ih =>
    intro games calls
    rcases h : profile g with _ | game
    · rw [fetchLoop, h]
      simp [List.filterMap_cons, h, List.append_assoc, ih]
    · rw [fetchLoop, h]
      simp [List.filterMap_cons, h, List.append_assoc, ih]

/-- C6: `fetch_game_cards` calls `get_game_profile` once per identifier
in input order, the output preserves the input order of identifiers,
and identifiers with no matching profile are silently omitted rather
than raising an error. -/
theorem C6_fetch_cards_order (profile : Int → Option Boardgame) (g_ids : List Int) :
    fetchCalls profile g_ids = g_ids ∧
    fetch_game_cards profile g_ids = g_ids.filterMap profile ∧
    ((∀ i game, profile i = some game → game.g_id = i) →
      (fetch_game_cards profile g_ids).map Boardgame.g_id
        = g_ids.filter fun i => (profile i).isSome) := by
  have hcalls : fetchCalls profile g_ids = g_ids := by
    unfold fetchCalls
    split
    · simp_all [List.isEmpty_iff]
    · rw [fetchLoop_eq]
      simp
  have hcards : fetch_game_cards profile g_ids = g_ids.filterMap profile := by
    unfold fetch_game_cards
    split
    · simp_all [List.isEmpty_iff]
    · rw [fetchLoop_eq]
      simp
  refine ⟨hcalls, hcards, fun hid => ?_⟩
  rw [hcards]
  clear hcalls hcards
  induction g_ids with
  | nil => rfl
  | cons i rest ih =>
    rcases h : profile i with _ | game
    · simp only [List.filterMap_cons, List.filter_cons, h, Option.isSome_none]
      simpa using ih
    · simp only [List.filterMap_cons, List.filter_cons, h, Option.isSome_some]
      simp only [List.map_cons, hid i game h]
      simpa using ih

/-- A one-row profile store: only identifier 10 exists. -/
def profileOne : Int → Option Boardgame :=
  fun i => if i = 10
    then some ⟨10, "Alpha", none, none, none, none, none, none, [], []⟩
    else none

theorem C6_fetch_cards_order_witness :
    fetchCalls profileOne [30, 10, 20] = [30, 10, 20] ∧
    (fetch_game_cards profileOne [30, 10, 20]).map Boardgame.g_id
      = List.filter (fun i => (profileOne i).isSome) [30, 10, 20] := by
  refine ⟨(C6_fetch_cards_order profileOne [30, 10, 20]).1,
    (C6_fetch_cards_order profileOne [30, 10, 20]).2.2 ?_⟩
  intro i game h
  by_cases hi : i = 10
  · subst hi
    simp only [profileOne, if_pos rfl] at h
    rw [← Option.some.inj h]
  · simp [profileOne, hi] at h

end BGRec

namespace BGRec

/-! ## JSON values (wire protocol of mcp_server.py)

Python objects produced by `json.loads` are embedded as `JVal`; a JSON
number is carried as a rational (Python ints and floats are conflated,
which none of the claims distinguish). -/

inductive JVal where
  | null
  | bool (b : Bool)
  | num (q : ℚ)
  | str (s : String)
  | arr (xs : List JVal)
  | obj (fs : List (String × JVal))

/-- Python truthiness of a JSON-decoded value (used by the server's
`req.get("params") or {}` and `params.get("arguments") or {}`
defaulting). -/
def JVal.truthy : JVal → Bool
  | .null => false
  | .bool b => b
  | .num q => q != 0
  | .str s => !s.isEmpty
  | .arr xs => !xs.isEmpty
  | .obj fs => !fs.isEmpty

/-- Python `dict.get(k)` on a JSON object: first binding wins, absent
keys give `none` (Python `None`). -/
def jGet (fs : List (String × JVal)) (k : String) : Option JVal :=
  (fs.find? fun p => p.1 == k).map Prod.snd

/-- Python `dict.get(k)` with the `None` result made explicit as
`JVal.null`. -/
def jGetD (fs : List (String × JVal)) (k : String) : JVal :=
  (jGet fs k).getD .null

/-! ## Constraints construction (db.py lines 149-191)

`Constraints.__init__` has eight named parameters after `self`, each
stored unvalidated, and a `**kwargs` catch-all that silently swallows
every other keyword.  `score_candidates` builds it as
`Constraints(**constraints)` from the caller's JSON dict, so field
values are arbitrary JSON values.  One genuine CPython wrinkle is kept:
a dict key `"self"` collides with the bound method's `self` parameter
and raises `TypeError` before any binding happens. -/

structure Constraints where
  players : JVal
  minplayers : JVal
  maxplayers : JVal
  maxplaytime : JVal
  minplaytime : JVal
  min_votes : JVal
  limit_candidates : JVal
  limit_final : JVal

/-- The named parameters of `Constraints.__init__` (besides `self`), in
source order. -/
def constraintsParamNames : List String :=
  ["players", "minplayers", "maxplayers", "maxplaytime", "minplaytime",
   "min_votes", "limit_candidates", "limit_final"]

/-- Embedding of `Constraints(**kw)` for a JSON dict `kw`: named
parameters are bound by key with the source's defaults, unknown keys are
swallowed by `**kwargs`, and a key `"self"` raises `TypeError`. -/
def Constraints.ofKwargs (kw : List (String × JVal)) : Except String Constraints :=
  if "self" ∈ kw.map Prod.fst then
    .error "TypeError: init got multiple values for argument self"
  else
    .ok ⟨(jGet kw "players").getD .null,
         (jGet kw "minplayers").getD .null,
         (jGet kw "maxplayers").getD .null,
         (jGet kw "maxplaytime").getD .null,
         (jGet kw "minplaytime").getD .null,
         (jGet kw "min_votes").getD (.num 500),
         (jGet kw "limit_candidates").getD (.num 200),
         (jGet kw "limit_final").getD (.num 8)⟩

lemma jGet_append_of_not_mem {extra : List (String × JVal)} {k : String}
    (hk : k ∉ extra.map Prod.fst) (args : List (String × JVal)) :
    jGet (args ++ extra) k = jGet args k := by
  induction args with
  | nil =>
    simp only [List.nil_append]
    unfold jGet
    rw [List.find?_eq_none.mpr]
    · rfl
    · intro p hp hpk
      exact hk (List.mem_map.mpr ⟨p, hp, by simpa using hpk⟩)
  | cons p args ih =>
    by_cases hpk : p.1 = k
    · unfold jGet
      rw [List.cons_append, List.find?_cons_of_pos _ (by simpa using hpk),
        List.find?_cons_of_pos _ (by simpa using hpk)]
    · unfold jGet
      rw [List.cons_append, List.find?_cons_of_neg _ (by simpa using hpk),
        List.find?_cons_of_neg _ (by simpa using hpk)]
      exact ih

/-- C9 (amended): the caps are the positive defaults 200 and 8 whenever
the caller does not override them; caller-supplied cap values are stored
without any validation, so a caller can make them zero or negative. -/
theorem C9_constraints_caps (kw : List (String × JVal)) (c : Constraints)
    (hc : Constraints.ofKwargs kw = .ok c) :
    (jGet kw "limit_candidates" = none →
       c.limit_candidates = .num 200 ∧ (0 : ℚ) < 200) ∧
    (jGet kw "limit_final" = none → c.limit_final = .num 8 ∧ (0 : ℚ) < 8) ∧
    (∀ v, jGet kw "limit_candidates" = some v → c.limit_candidates = v) ∧
    (∀ v, jGet kw "limit_final" = some v → c.limit_final = v) := by
  unfold Constraints.ofKwargs at hc
  split at hc
  · cases hc
  · have hc₂ := Except.ok.inj hc
    subst hc₂
    refine ⟨fun h => ⟨by simp [h], by norm_num⟩,
      fun h => ⟨by simp [h], by norm_num⟩,
      fun v h => by simp [h], fun v h => by simp [h]⟩

/-- C9 counterexample: a caller-supplied `limit_final` of 0 is stored as
is, so the constructed Constraints has a non-positive final cap. -/
theorem C9_constraints_caps_counterexample :
    Constraints.ofKwargs [("limit_final", JVal.num 0)]
      = .ok ⟨.null, .null, .null, .null, .null, .num 500, .num 200, .num 0⟩ ∧
    ¬ (0 : ℚ) < 0 :=
  ⟨rfl, by norm_num⟩

theorem C9_constraints_caps_witness :
    Constraints.limit_final
        ⟨.null, .null, .null, .null, .null, .num 500, .num 200, .num 8⟩ = .num 8 ∧
      (0 : ℚ) < 8 :=
  (C9_constraints_caps [] _ rfl).2.1 rfl

end BGRec

namespace BGRec

/-! ## Tool registry (mcp_server.py lines 36-46 and 158-242)

Each entry carries the registered name, description, `inputSchema`
literal, and the keyword signature of the bound lambda: parameter name
plus default (`none` marks a required parameter).  Every lambda ends in
`**kwargs`, which swallows all other keywords. -/

/-- The `CONSTRAINTS_DOC` description string (mcp_server.py lines
36-46). -/
def CONSTRAINTS_DOC : String :=
  "Constraints object with optional fields: players (int, exact player count), minplayers (int, minimum players), maxplayers (int, maximum players), minplaytime (int, minimum playtime in minutes), maxplaytime (int, maximum playtime in minutes), min_votes (int, default 500, minimum rating votes), limit_candidates (int, default 200, max candidates per generator), limit_final (int, default 8, number of final recommendations)"

structure ToolSpec where
  name : String
  description : String
  inputSchema : JVal
  sig : List (String × Option JVal)

/-- The registry, in registration order. -/
def toolRegistry : List ToolSpec :=
  [⟨"get_games_by_name", "Find games by (substring) name.",
    .obj [("type", .str "object"),
          ("properties", .obj
            [("name_query", .obj [("type", .str "string")]),
             ("limit", .obj [("type", .str "integer"), ("default", .num 10)])]),
          ("required", .arr [.str "name_query"])],
    [("name_query", none), ("limit", some (.num 10))]⟩,
   ⟨"get_game_profile",
    "Fetch a denormalized game profile (stats + categories + designers).",
    .obj [("type", .str "object"),
          ("properties", .obj [("g_id", .obj [("type", .str "integer")])]),
          ("required", .arr [.str "g_id"])],
    [("g_id", none)]⟩,
   ⟨"search_categories",
    "Search for categories by name substring. Omit query to list all categories.",
    .obj [("type", .str "object"),
          ("properties", .obj
            [("query", .obj [("type", .str "string"),
               ("description", .str "Category name substring to search for (optional - omit to list all)")]),
             ("limit", .obj [("type", .str "integer"), ("default", .num 10)])]),
          ("required", .arr [])],
    [("query", some .null), ("limit", some (.num 10))]⟩,
   ⟨"search_designers",
    "Search for designers by name substring. Omit query to list all designers.",
    .obj [("type", .str "object"),
          ("properties", .obj
            [("query", .obj [("type", .str "string"),
               ("description", .str "Designer name substring to search for (optional - omit to list all)")]),
             ("limit", .obj [("type", .str "integer"), ("default", .num 10)])]),
          ("required", .arr [])],
    [("query", some .null), ("limit", some (.num 10))]⟩,
   ⟨"candidate_by_categories",
    "Generate candidates by category overlap. Use search_categories first to get category IDs from names.",
    .obj [("type", .str "object"),
          ("properties", .obj
            [("c_ids", .obj [("type", .str "array"),
               ("items", .obj [("type", .str "integer")]),
               ("description", .str "Array of category IDs")]),
             ("constraints", .obj [("type", .str "object"),
               ("description", .str CONSTRAINTS_DOC)])]),
          ("required", .arr [.str "c_ids", .str "constraints"])],
    [("c_ids", none), ("constraints", some .null)]⟩,
   ⟨"candidate_by_designers",
    "Generate candidates by designer overlap. Use search_designers first to get designer IDs from names.",
    .obj [("type", .str "object"),
          ("properties", .obj
            [("des_ids", .obj [("type", .str "array"),
               ("items", .obj [("type", .str "integer")]),
               ("description", .str "Array of designer IDs")]),
             ("constraints", .obj [("type", .str "object"),
               ("description", .str CONSTRAINTS_DOC)])]),
          ("required", .arr [.str "des_ids", .str "constraints"])],
    [("des_ids", none), ("constraints", some .null)]⟩,
   ⟨"score_candidates",
    "Combine candidate signals, score to select final IDs.",
    .obj [("type", .str "object"),
          ("properties", .obj
            [("candidates", .obj [("type", .str "array"),
               ("items", .obj [("type", .str "object")])]),
             ("constraints", .obj [("type", .str "object"),
               ("description", .str CONSTRAINTS_DOC)]),
             ("exclude_g_ids", .obj [("type", .str "array"),
               ("items", .obj [("type", .str "integer")])])]),
          ("required", .arr [.str "candidates", .str "constraints", .str "exclude_g_ids"])],
    [("candidates", none), ("constraints", none), ("exclude_g_ids", none)]⟩,
   ⟨"fetch_game_cards",
    "Fetch final denormalized game cards for display.",
    .obj [("type", .str "object"),
          ("properties", .obj
            [("g_ids", .obj [("type", .str "array"),
               ("items", .obj [("type", .str "integer")])])]),
          ("required", .arr [.str "g_ids"])],
    [("g_ids", none)]⟩]

/-- The property names a tool's `inputSchema` declares. -/
def schemaProps : JVal → List String
  | .obj fs =>
    match jGet fs "properties" with
    | some (.obj ps) => ps.map Prod.fst
    | _ => []
  | _ => []

/-- Keyword binding performed by a registered lambda on `**arguments`:
each named parameter takes the caller's value when the key is present,
its default otherwise; a missing required parameter is a `TypeError`;
all remaining keys land in the lambda's `**kwargs` and are ignored. -/
def bindArgs : List (String × Option JVal) → List (String × JVal) → Except String (List JVal)
  | [], _ => .ok []
  | (n, d) :: sig, args =>
    match jGet args n, d with
    | some v, _ => (bindArgs sig args).map fun vs => v :: vs
    | none, some dv => (bindArgs sig args).map fun vs => dv :: vs
    | none, none => .error (String.append "TypeError: missing required argument " n)

lemma bindArgs_append {sig : List (String × Option JVal)} {args extra : List (String × JVal)}
    (h : ∀ k ∈ extra.map Prod.fst, k ∉ sig.map Prod.fst) :
    bindArgs sig (args ++ extra) = bindArgs sig args := by
  induction sig with
  | nil => rfl
  | cons nd sig ih =>
    have hn : nd.1 ∉ extra.map Prod.fst := fun hmem => h nd.1 hmem (by simp)
    have hget := jGet_append_of_not_mem hn args
    have ih₂ := ih fun k hk hks => h k hk (List.mem_cons_of_mem _ hks)
    cases nd with
    | mk n d =>
      unfold bindArgs
      rw [hget, ih₂]

lemma ofKwargs_append {args extra : List (String × JVal)}
    (h : ∀ k ∈ extra.map Prod.fst, k ∉ constraintsParamNames ∧ k ≠ "self") :
    Constraints.ofKwargs (args ++ extra) = Constraints.ofKwargs args := by
  have hget : ∀ n ∈ constraintsParamNames, jGet (args ++ extra) n = jGet args n :=
    fun n hn => jGet_append_of_not_mem (fun hmem => (h n hmem).1 hn) args
  have h₁ : ("self" ∈ (args ++ extra).map Prod.fst) = ("self" ∈ args.map Prod.fst) := by
    simp only [List.map_append, List.mem_append]
    refine propext ⟨?_, Or.inl⟩
    rintro (hs | hs)
    · exact hs
    · exact absurd rfl (h _ hs).2.symm
  unfold Constraints.ofKwargs
  simp only [h₁]
  rw [hget "players" (by decide), hget "minplayers" (by decide),
    hget "maxplayers" (by decide), hget "maxplaytime" (by decide),
    hget "minplaytime" (by decide), hget "min_votes" (by decide),
    hget "limit_candidates" (by decide), hget "limit_final" (by decide)]

/-- C10 (amended): for every registered tool, the lambda's parameter
names coincide with the schema's declared properties, and argument keys
beyond them are swallowed by `**kwargs` without changing the binding;
`Constraints(**constraints)` likewise ignores unknown constraint keys —
with one CPython exception: a constraints key named `"self"` collides
with the bound method's `self` parameter and raises `TypeError`. -/
theorem C10_extra_keys_ignored :
    (∀ t ∈ toolRegistry, t.sig.map Prod.fst = schemaProps t.inputSchema) ∧
    (∀ t ∈ toolRegistry, ∀ args extra : List (String × JVal),
       (∀ k ∈ extra.map Prod.fst, k ∉ schemaProps t.inputSchema) →
       bindArgs t.sig (args ++ extra) = bindArgs t.sig args) ∧
    (∀ args extra : List (String × JVal),
       (∀ k ∈ extra.map Prod.fst, k ∉ constraintsParamNames ∧ k ≠ "self") →
       Constraints.ofKwargs (args ++ extra) = Constraints.ofKwargs args) := by
  have hprops : ∀ t ∈ toolRegistry, t.sig.map Prod.fst = schemaProps t.inputSchema := by
    intro t ht
    fin_cases ht <;> rfl
  refine ⟨hprops, fun t ht args extra hk => ?_, fun args extra h => ofKwargs_append h⟩
  refine bindArgs_append fun k hkm => ?_
  rw [hprops t ht]
  exact hk k hkm

/-- C10 counterexample: the unknown constraint key `"self"` makes
`Constraints(**constraints)` raise `TypeError` instead of being ignored,
while the same call without it succeeds. -/
theorem C10_extra_keys_counterexample :
    Constraints.ofKwargs [("self", JVal.null)]
      = .error "TypeError: init got multiple values for argument self" ∧
    Constraints.ofKwargs []
      = .ok ⟨.null, .null, .null, .null, .null, .num 500, .num 200, .num 8⟩ :=
  ⟨rfl, rfl⟩

theorem C10_extra_keys_ignored_witness :
    bindArgs [("g_id", none)] [("g_id", JVal.num 3), ("color", JVal.str "red")]
      = bindArgs [("g_id", none)] [("g_id", JVal.num 3)] ∧
    Constraints.ofKwargs [("players", JVal.num 2), ("banana", JVal.num 1)]
      = Constraints.ofKwargs [("players", JVal.num 2)] := by
  have h := C10_extra_keys_ignored
  refine ⟨?_, ?_⟩
  · refine h.2.1 ⟨"get_game_profile",
      "Fetch a denormalized game profile (stats + categories + designers).",
      .obj [("type", .str "object"),
            ("properties", .obj [("g_id", .obj [("type", .str "integer")])]),
            ("required", .arr [.str "g_id"])],
      [("g_id", none)]⟩ (by simp [toolRegistry])
      [("g_id", JVal.num 3)] [("color", JVal.str "red")] ?_
    intro k hkm
    simp only [List.map_cons, List.map_nil, List.mem_singleton] at hkm
    subst hkm
    decide
  · exact h.2.2 [("players", JVal.num 2)] [("banana", JVal.num 1)]
      (fun k hkm => by
        simp only [List.map_cons, List.map_nil, List.mem_singleton] at hkm
        subst hkm
        exact ⟨by decide, by decide⟩)

end BGRec


namespace BGRec

/-! ## The JSON-RPC loop (mcp_server.py lines 248-291)

The loop is embedded per line: `json.loads` is a parameter
`parse : String → Option JVal` (`none` = `json.JSONDecodeError`), and
the combined effect of `tools[name]["fn"](**arguments)` plus
`_jsonable` is a parameter `exec` returning one of three outcomes.
Uncaught Python exceptions (anything outside the
`except (ValueError, KeyError, TypeError)` net, e.g. the
`AttributeError` from calling `.get` on a non-dict) are `Except.error`:
the loop dies without writing a response.  The dispatch is split into
helper functions taking the scrutinised value as an argument, which
keeps the embedding identical to the source's single block while making
the case structure explicit. -/

/-- Python `str.strip()` on the request line, implemented over the
character list so that concrete lines evaluate inside proofs. -/
def pyStrip (s : String) : String :=
  ((s.data.dropWhile Char.isWhitespace).reverse.dropWhile Char.isWhitespace).reverse.asString

/-- Outcome of executing a registered tool on bound arguments, including
serializing the result (`_jsonable`). -/
inductive ExecOutcome where
  /-- the callable returned and the result serialized. -/
  | ok (result : JVal)
  /-- the callable (or serialization) raised `ValueError`, `KeyError` or
  `TypeError`: the dispatch boundary catches it. -/
  | recoverable (msg : String)
  /-- any other exception: nothing catches it, the loop crashes. -/
  | fatal (msg : String)

def ExecOutcome.isFatal : ExecOutcome → Bool
  | .fatal _ => true
  | _ => false

/-- Success response `_ok` (mcp_server.py lines 105-115). -/
def jok (idv result : JVal) : JVal :=
  .obj [("jsonrpc", .str "2.0"), ("id", idv), ("result", result)]

/-- Error response `_error` (mcp_server.py lines 87-102); the `data`
member is present only when supplied. -/
def jerror (idv : JVal) (code : ℚ) (message : String) (data : Option JVal) : JVal :=
  .obj [("jsonrpc", .str "2.0"), ("id", idv),
        ("error", .obj ([("code", .num code), ("message", .str message)]
          ++ match data with | some d => [("data", d)] | none => []))]

/-- The `tools/list` result (line 267): name, description and
inputSchema of every registered tool, in registration order. -/
def toolsListResult : JVal :=
  .arr (toolRegistry.map fun t => .obj
    [("name", .str t.name), ("description", .str t.description),
     ("inputSchema", t.inputSchema)])

/-- Python `params.get("params"/"arguments") or {}`: falsy values are
replaced by the empty dict. -/
def orEmptyObj (v : JVal) : JVal :=
  if v.truthy then v else .obj []

/-- Execution of a registered tool `s` on bound arguments (line 280-283
success path, line 289-291 recoverable path). -/
def runTool (exec : String → List (String × JVal) → ExecOutcome)
    (idv : JVal) (s : String) (afs : List (String × JVal)) :
    Except String (List JVal) :=
  match exec s afs with
  | .ok v => .ok [jok idv v]
  | .recoverable msg => .ok [jerror idv (-32001) "Tool error"
      (some (.obj [("error", .str msg)]))]
  | .fatal msg => .error msg

/-- Unpacking `fn(**arguments)` for a registered tool: a non-dict truthy
`arguments` makes the `**` unpacking raise `TypeError`, which the
dispatch boundary catches as `-32001`. -/
def callArgs (exec : String → List (String × JVal) → ExecOutcome)
    (idv : JVal) (s : String) : JVal → Except String (List JVal)
  | .obj afs => runTool exec idv s afs
  | _ => .ok [jerror idv (-32001) "Tool error"
      (some (.obj [("error", .str "TypeError: argument after must be a mapping")]))]

/-- Resolution of `name = params.get("name")` (lines 272-277): an
unhashable name (list or dict) makes `name not in tools` raise
`TypeError` (caught, `-32001`); a hashable value that is not a
registered tool name yields `-32601`. -/
def callNamed (exec : String → List (String × JVal) → ExecOutcome)
    (idv : JVal) (pfs : List (String × JVal)) : JVal → Except String (List JVal)
  | .arr _ => .ok [jerror idv (-32001) "Tool error"
      (some (.obj [("error", .str "TypeError: unhashable type")]))]
  | .obj _ => .ok [jerror idv (-32001) "Tool error"
      (some (.obj [("error", .str "TypeError: unhashable type")]))]
  | .str s =>
    if s ∈ toolRegistry.map ToolSpec.name then
      callArgs exec idv s (orEmptyObj (jGetD pfs "arguments"))
    else .ok [jerror idv (-32601) "Unknown tool" none]
  | _ => .ok [jerror idv (-32601) "Unknown tool" none]

/-- The `tools/call` branch once `params` has been falsy-defaulted: a
truthy non-dict `params` crashes on `params.get("name")`
(`AttributeError` is outside the `except` net). -/
def callWithParams (exec : String → List (String × JVal) → ExecOutcome)
    (idv : JVal) : JVal → Except String (List JVal)
  | .obj pfs => callNamed exec idv pfs (jGetD pfs "name")
  | _ => .error "AttributeError"

/-- Method dispatch (lines 265-287) on the request's `method` value:
only the string methods `tools/list` and `tools/call` are known, any
other value yields the `-32601` unknown-method response. -/
def dispatchMethod (exec : String → List (String × JVal) → ExecOutcome)
    (fs : List (String × JVal)) : JVal → Except String (List JVal)
  | .str m =>
    if m = "tools/list" then .ok [jok (jGetD fs "id") toolsListResult]
    else if m = "tools/call" then
      callWithParams exec (jGetD fs "id") (orEmptyObj (jGetD fs "params"))
    else .ok [jerror (jGetD fs "id") (-32601) "Unknown method" none]
  | _ => .ok [jerror (jGetD fs "id") (-32601) "Unknown method" none]

/-- Dispatch of one parsed request object (lines 259-287). -/
def dispatchReq (exec : String → List (String × JVal) → ExecOutcome)
    (fs : List (String × JVal)) : Except String (List JVal) :=
  dispatchMethod exec fs (jGetD fs "method")

/-- One iteration of `for line in sys.stdin` (lines 248-291): blank
lines are skipped, an unparsable line gets the `-32700` response with
the offending line echoed in `data` and `id` null, a parsed non-object
crashes on `req.get` (`AttributeError`), and a parsed object is
dispatched.  The result lists the response lines written. -/
def handleLine (parse : String → Option JVal)
    (exec : String → List (String × JVal) → ExecOutcome)
    (rawLine : String) : Except String (List JVal) :=
  if pyStrip rawLine = "" then .ok []
  else
    match parse (pyStrip rawLine) with
    | none => .ok [jerror .null (-32700) "Parse error"
        (some (.obj [("line", .str (pyStrip rawLine))]))]
    | some (.obj fs) => dispatchReq exec fs
    | some _ => .error "AttributeError"

/-- The whole loop over a finite input: responses written so far, plus
the uncaught exception that killed the loop, if any. -/
def serverLoop (parse : String → Option JVal)
    (exec : String → List (String × JVal) → ExecOutcome) :
    List String → List JVal × Option String
  | [] => ([], none)
  | l :: ls =>
    match handleLine parse exec l with
    | .error e => ([], some e)
    | .ok rs => (rs ++ (serverLoop parse exec ls).1, (serverLoop parse exec ls).2)

/-- Whether a falsy-defaulted `params` value avoids the
`AttributeError` crash (it is a dict). -/
def safeParams : JVal → Bool
  | .obj _ => true
  | _ => false

/-- Whether a request's `method` value leads to a crash-free dispatch:
`tools/call` needs a dict `params` after defaulting; everything else is
always answered. -/
def methodSafe (fs : List (String × JVal)) : JVal → Bool
  | .str m =>
    if m = "tools/call" then safeParams (orEmptyObj (jGetD fs "params"))
    else true
  | _ => true

/-- A request object is dispatchable without crashing. -/
def dispatchSafe (fs : List (String × JVal)) : Bool :=
  methodSafe fs (jGetD fs "method")

/-- A response is a success (has a `result` member). -/
def isSuccessResp : JVal → Bool
  | .obj fs => (jGet fs "result").isSome
  | _ => false

/-- The error code of an error response, when present. -/
def errCode : JVal → Option ℚ
  | .obj fs =>
    match jGet fs "error" with
    | some (.obj efs) =>
      match jGet efs "code" with
      | some (.num q) => some q
      | _ => none
    | _ => none
  | _ => none

/-- Shape every dispatch answer must have: success, or an error with one
of the reserved recoverable codes. -/
def respShape (r : JVal) : Prop :=
  isSuccessResp r = true ∨ errCode r = some (-32601) ∨ errCode r = some (-32001)

end BGRec

namespace BGRec

lemma callNamed_shape (exec : String → List (String × JVal) → ExecOutcome)
    (idv : JVal) (pfs : List (String × JVal)) (name : JVal)
    (hnf : ∀ n a, (exec n a).isFatal = false) :
    ∃ r, callNamed exec idv pfs name = .ok [r] ∧ respShape r := by
  cases name with
  | arr xs => exact ⟨_, rfl, Or.inr (Or.inr rfl)⟩
  | obj gfs => exact ⟨_, rfl, Or.inr (Or.inr rfl)⟩
  | null => exact ⟨_, rfl, Or.inr (Or.inl rfl)⟩
  | bool b => exact ⟨_, rfl, Or.inr (Or.inl rfl)⟩
  | num q => exact ⟨_, rfl, Or.inr (Or.inl rfl)⟩
  | str s =>
    simp only [callNamed]
    by_cases hs : s ∈ toolRegistry.map ToolSpec.name
    · rw [if_pos hs]
      cases harg : orEmptyObj (jGetD pfs "arguments") with
      | obj afs =>
        simp only [callArgs, runTool]
        cases hexec : exec s afs with
        | ok v => exact ⟨_, rfl, Or.inl rfl⟩
        | recoverable msg => exact ⟨_, rfl, Or.inr (Or.inr rfl)⟩
        | fatal msg =>
          have hf := hnf s afs
          rw [hexec] at hf
          cases hf
      | null => exact ⟨_, rfl, Or.inr (Or.inr rfl)⟩
      | bool b => exact ⟨_, rfl, Or.inr (Or.inr rfl)⟩
      | num q => exact ⟨_, rfl, Or.inr (Or.inr rfl)⟩
      | str s₂ => exact ⟨_, rfl, Or.inr (Or.inr rfl)⟩
      | arr xs => exact ⟨_, rfl, Or.inr (Or.inr rfl)⟩
    · rw [if_neg hs]
      exact ⟨_, rfl, Or.inr (Or.inl rfl)⟩

lemma dispatchReq_shape (exec : String → List (String × JVal) → ExecOutcome)
    (fs : List (String × JVal)) (hnf : ∀ n a, (exec n a).isFatal = false)
    (hsafe : dispatchSafe fs = true) :
    ∃ r, dispatchReq exec fs = .ok [r] ∧ respShape r := by
  unfold dispatchReq
  unfold dispatchSafe at hsafe
  cases hm : jGetD fs "method" with
  | null => exact ⟨_, rfl, Or.inr (Or.inl rfl)⟩
  | bool b => exact ⟨_, rfl, Or.inr (Or.inl rfl)⟩
  | num q => exact ⟨_, rfl, Or.inr (Or.inl rfl)⟩
  | arr xs => exact ⟨_, rfl, Or.inr (Or.inl rfl)⟩
  | obj gfs => exact ⟨_, rfl, Or.inr (Or.inl rfl)⟩
  | str m =>
    rw [hm] at hsafe
    simp only [dispatchMethod]
    simp only [methodSafe] at hsafe
    by_cases h1 : m = "tools/list"
    · rw [if_pos h1]
      exact ⟨_, rfl, Or.inl rfl⟩
    · rw [if_neg h1]
      by_cases h2 : m = "tools/call"
      · rw [if_pos h2]
        rw [if_pos h2] at hsafe
        cases hp : orEmptyObj (jGetD fs "params") with
        | obj pfs =>
          simp only [callWithParams]
          exact callNamed_shape exec (jGetD fs "id") pfs (jGetD pfs "name") hnf
        | null => rw [hp] at hsafe; simp [safeParams] at hsafe
        | bool b => rw [hp] at hsafe; simp [safeParams] at hsafe
        | num q => rw [hp] at hsafe; simp [safeParams] at hsafe
        | str s => rw [hp] at hsafe; simp [safeParams] at hsafe
        | arr xs => rw [hp] at hsafe; simp [safeParams] at hsafe
      · rw [if_neg h2]
        exact ⟨_, rfl, Or.inr (Or.inl rfl)⟩

/-- C5 (amended): for every non-empty request line, if the line is not
valid JSON the loop writes exactly the `-32700` error response (id
null, offending line echoed in `data`); if it parses to a JSON object
whose `params` (after falsy-defaulting) is an object whenever the
method is `tools/call`, and tool execution raises nothing outside the
recoverable net, the loop writes exactly one response — a success, or
an error with code `-32601` (unknown method or tool) or `-32001`
(recoverable tool failure) — and then continues with the next line.
(The claim as stated fails for a line parsing to a non-object JSON
value: `req.get` raises `AttributeError`, which nothing catches, so the
loop dies with no response; likewise for a truthy non-object `params`
on `tools/call`, and for unanticipated tool exceptions — the fail-fast
taxonomy case of the spec.) -/
theorem C5_one_response_per_line (parse : String → Option JVal)
    (exec : String → List (String × JVal) → ExecOutcome) (rawLine : String)
    (ls : List String) :
    (pyStrip rawLine ≠ "" → parse (pyStrip rawLine) = none →
       handleLine parse exec rawLine
         = .ok [jerror .null (-32700) "Parse error"
             (some (.obj [("line", .str (pyStrip rawLine))]))]) ∧
    (∀ fs, pyStrip rawLine ≠ "" → parse (pyStrip rawLine) = some (.obj fs) →
       (∀ n a, (exec n a).isFatal = false) → dispatchSafe fs = true →
       ∃ r, handleLine parse exec rawLine = .ok [r] ∧ respShape r) ∧
    (∀ rs, handleLine parse exec rawLine = .ok rs →
       serverLoop parse exec (rawLine :: ls)
         = (rs ++ (serverLoop parse exec ls).1, (serverLoop parse exec ls).2)) := by
  refine ⟨fun hne hp => ?_, fun fs hne hp hnf hsafe => ?_, fun rs h => ?_⟩
  · unfold handleLine
    rw [if_neg hne, hp]
  · unfold handleLine
    rw [if_neg hne, hp]
    exact dispatchReq_shape exec fs hnf hsafe
  · show (match handleLine parse exec rawLine with
      | .error e => ([], some e)
      | .ok rs => (rs ++ (serverLoop parse exec ls).1, (serverLoop parse exec ls).2))
        = (rs ++ (serverLoop parse exec ls).1, (serverLoop parse exec ls).2)
    rw [h]

/-- The true `json.loads` behaviour on the single line `"5"`: valid
JSON denoting the number 5 (not an object). -/
def parseNum5 : String → Option JVal :=
  fun s => if s = "5" then some (.num 5) else none

/-- A tool executor that always succeeds with `null`. -/
def execNullOk : String → List (String × JVal) → ExecOutcome :=
  fun _ _ => .ok .null

/-- C5 counterexample: the non-empty line `"5"` is valid JSON, yet the
loop writes no response at all — `req.get("id")` on the parsed `int`
raises `AttributeError`, which no handler catches, and the loop dies. -/
theorem C5_one_response_counterexample :
    pyStrip "5" ≠ "" ∧ parseNum5 (pyStrip "5") = some (.num 5) ∧
    serverLoop parseNum5 execNullOk ["5"] = ([], some "AttributeError") := by
  refine ⟨by decide, rfl, rfl⟩

theorem C5_one_response_per_line_witness :
    handleLine parseNum5 execNullOk "bad"
      = .ok [jerror .null (-32700) "Parse error"
          (some (.obj [("line", .str "bad")]))] ∧
    serverLoop parseNum5 execNullOk ["bad"]
      = ([jerror .null (-32700) "Parse error" (some (.obj [("line", .str "bad")]))],
         none) := by
  have h := C5_one_response_per_line parseNum5 execNullOk "bad" []
  have hstrip : pyStrip "bad" = "bad" := rfl
  have h1 := h.1 (by decide) rfl
  rw [hstrip] at h1
  refine ⟨h1, ?_⟩
  have h3 := h.2.2 _ h1
  rw [h3]
  rfl

end BGRec
